import Mathlib

/-!
Verification of the build-orchestration core of `nxus/clientjs`
(`src/index.js`, webpack-based `ClientJS` module).

The embedding models:
* the Node `path` helpers the module uses (`basename`, `dirname`,
  `resolve`, `join`) restricted to the path shapes the module produces;
* `ClientJS._establishRoute`, `ClientJS.bundle`, `ClientJS.includeScript`
  as pure state transformers over an explicit state (`BState`) recording
  the `_outputPaths` memo, the `_establishedRoutes` map, the log of
  `router.staticRoute` calls and the filesystem contents touched;
* the launch lifecycle gate (`_builders`, `_buildWhenReady`,
  `_buildingWhenReady`) as a small transition system (`LState`, `lstep`)
  whose invocation trace records when each registered build task is
  started and settled.
-/

namespace ClientJS

/-! ### Node path helpers (the subset `src/index.js` uses) -/

/-- Whether the path starts with the separator (`p[0] === '/'`). -/
def startsWithSlash (p : String) : Bool :=
  match p.toList with
  | [] => false
  | c :: _ => c == '/'

/-- Remove trailing `/` characters (Node's path functions ignore them). -/
def dropTrailingSlashes (p : String) : String :=
  String.mk ((p.toList.reverse.dropWhile (· = '/')).reverse)

/-- Split a character list at every `'/'` (accumulator holds the current
segment reversed), producing the same segments as splitting the string on
the separator. -/
def splitSlashAux : List Char → List Char → List String
  | [], cur => [String.mk cur.reverse]
  | c :: cs, cur =>
    if c = '/' then String.mk cur.reverse :: splitSlashAux cs []
    else splitSlashAux cs (c :: cur)

/-- Split a path into its `'/'`-separated segments (empty segments kept,
as `String.splitOn "/"` would). -/
def splitOnSlash (p : String) : List String :=
  splitSlashAux p.toList []

/-- Node `path.basename`: the portion of the path after the last separator,
trailing separators ignored. -/
def basename (p : String) : String :=
  let t := dropTrailingSlashes p
  if t = "" then (if startsWithSlash p then "/" else "")
  else (splitOnSlash t).getLastD ""

/-- Node `path.dirname`: the path with its last component removed,
trailing separators ignored; `"."` when there is no separator. -/
def dirname (p : String) : String :=
  let t := dropTrailingSlashes p
  if t = "" then (if startsWithSlash p then "/" else ".")
  else
    let d := (splitOnSlash t).dropLast
    if d = [] then "."
    else
      let r := dropTrailingSlashes (String.intercalate "/" d)
      if r = "" then "/" else r

/-- Component-wise resolution used by `path.resolve`: drop empty and `"."`
segments, let `".."` discard the previous segment. -/
def resolveSegs (acc : List String) : List String → List String
  | [] => acc
  | s :: rest =>
    if s = "" ∨ s = "." then resolveSegs acc rest
    else if s = ".." then resolveSegs acc.dropLast rest
    else resolveSegs (acc ++ [s]) rest

/-- Node `path.resolve` with a fixed working directory `cwd` (assumed
absolute): make the path absolute against `cwd` and normalise it. -/
def resolvePath (cwd p : String) : String :=
  let full := if startsWithSlash p then p else cwd ++ "/" ++ p
  "/" ++ String.intercalate "/" (resolveSegs [] (splitOnSlash full))

/-- Node `path.join` for two parts: concatenate with a separator and
collapse duplicate separators (no `".."` appears in the module's joins). -/
def joinPath (a b : String) : String :=
  if a = "" then b
  else if b = "" then a
  else
    let s := a ++ "/" ++ b
    let lead := if startsWithSlash s then "/" else ""
    lead ++ String.intercalate "/" ((splitOnSlash s).filter (· ≠ ""))

/-! ### Configuration (the `client_js` options `bundle` reads) -/

structure Config where
  routePrefix : String
  assetFolder : String
  /-- `process.cwd()`, fixed for the process, used by `path.resolve`. -/
  cwd : String
  buildSeries : Bool
  buildOnly : Bool
  buildNone : Bool
deriving DecidableEq, Repr

/-- A settled build result: `ok` for a resolved build promise, `error` for a
rejected one (carrying the error's message). -/
instance : DecidableEq (Except String Unit) := fun a b =>
  match a, b with
  | .ok (), .ok () => isTrue rfl
  | .error x, .error y =>
    if h : x = y then isTrue (by rw [h]) else isFalse (fun hc => h (by cases hc; rfl))
  | .ok (), .error _ => isFalse (fun hc => by cases hc)
  | .error _, .ok () => isFalse (fun hc => by cases hc)

/-! ### Module state

`BState` carries the mutable fields of the `ClientJS` instance together
with the externally observable effects the claims are about: the log of
`router.staticRoute` calls and the filesystem (directories ensured, files
present). -/

structure BState where
  /-- `this._outputPaths`: output-file key ↦ the settled result of the
  memoised build promise stored for that key. -/
  outputPaths : List (String × Except String Unit)
  /-- `this._establishedRoutes`: route ↦ directory, written once per route. -/
  establishedRoutes : List (String × String)
  /-- Log of `router.staticRoute(route, dir)` calls, in order. -/
  staticRouteCalls : List (String × String)
  /-- Directories that exist (`fs.ensureDirSync` adds to this). -/
  dirs : List String
  /-- Files present on disk. -/
  files : List String
deriving DecidableEq, Repr

def emptyBState : BState :=
  { outputPaths := [], establishedRoutes := [], staticRouteCalls := [], dirs := [], files := [] }

/-- `ClientJS._establishRoute(route, path)` (src/index.js:180-186): if
`route` is not yet a key of `_establishedRoutes`, ensure the directory
exists, call `router.staticRoute(route, path)` and record the route. -/
def establishRoute (s : BState) (route pathDir : String) : BState :=
  if (s.establishedRoutes.lookup route).isSome then s
  else
    { s with
      dirs := if pathDir ∈ s.dirs then s.dirs else pathDir :: s.dirs,
      staticRouteCalls := s.staticRouteCalls ++ [(route, pathDir)],
      establishedRoutes := (route, pathDir) :: s.establishedRoutes }

/-- Folding a call sequence through `establishRoute`. -/
def execRoutes (s : BState) (calls : List (String × String)) : BState :=
  calls.foldl (fun s c => establishRoute s c.1 c.2) s

/-! ### `bundle` -/

/-- The outcome the `webpack(options, (err, stats) => ...)` callback
observes: a fatal error `err`, compilation errors (`stats.hasErrors()`, with
`info.errors`), or success (possibly with warnings, which are only logged). -/
inductive WPOutcome where
  | fatal (err : String)
  | compileErrors (errs : List String)
  | success (warnings : List String)
deriving DecidableEq, Repr

/-- The external webpack build, as an oracle from the parts of the options
`_webpackConfig` derives from `bundle`'s arguments — the entry, the output
directory and the output filename — to the outcome of the build. -/
abbrev WPOracle := String → String → String → WPOutcome

/-- `bundle`'s canonicalisation of its `output` argument
(src/index.js:273): `if(output && output[0] !== '/') output = '/'+output`.
The empty string is falsy in JS, so it is left unchanged. -/
def canonOutput (output : String) : String :=
  if output ≠ "" ∧ startsWithSlash output = false then "/" ++ output else output

/-- The memoisation key `bundle` uses: `outputFile = assetFolder + output`
after canonicalisation (src/index.js:276). -/
def outputFileKey (cfg : Config) (output : String) : String :=
  cfg.assetFolder ++ canonOutput output

/-- `ClientJS.bundle(entry, output)` (src/index.js:265-313) as a state
transformer. Returns the new state, the settled result of the promise
`bundle` returns, and whether a webpack build was started by this call.

On a memo miss the webpack callback behaviour is modelled eagerly:
* fatal `err`: reject with `err` (no file change);
* `stats.hasErrors()`: remove a previously written `outputFile` if present,
  reject with `new Error(info.errors.toString())` (the comma-joined list);
* success: webpack has written `outputFile`; warnings are only logged.

Then `_establishRoute(outputRoute, outputPath)` runs and the promise is
stored in `_outputPaths[outputFile]`. -/
def bundle (cfg : Config) (wp : WPOracle) (s : BState) (entry output : String) :
    BState × Except String Unit × Bool :=
  let output := canonOutput output
  let outputRoute := cfg.routePrefix ++ dirname output
  let outputPath := resolvePath cfg.cwd (cfg.assetFolder ++ dirname output)
  let outputFile := cfg.assetFolder ++ output
  let outputFilename := basename outputFile
  match s.outputPaths.lookup outputFile with
  | some r => (s, r, false)
  | none =>
    let rf : Except String Unit × List String :=
      match wp entry outputPath outputFilename with
      | .fatal err => (.error err, s.files)
      | .compileErrors errs =>
        (.error (String.intercalate "," errs), s.files.filter (· ≠ outputFile))
      | .success _ =>
        (.ok (), if outputFile ∈ s.files then s.files else outputFile :: s.files)
    let s' := establishRoute { s with files := rf.2 } outputRoute outputPath
    ({ s' with outputPaths := (outputFile, rf.1) :: s'.outputPaths }, rf.1, true)

/-! ### `includeScript` -/

/-- The render context `includeScript` supplies to the templater hook
(src/index.js:171-175). -/
structure RenderCtx where
  headScripts : List String
  scripts : List String
  imports : List String
deriving DecidableEq, Repr

/-- The context `includeScript(templateName, script)` registers for
`renderContext.templateName`: the single served script URL is the route
prefix joined with the basename of `script` (src/index.js:166-175). -/
def includeScriptCtx (cfg : Config) (script : String) : RenderCtx :=
  { headScripts := [], scripts := [joinPath cfg.routePrefix (basename script)], imports := [] }

/-- The registration side of the orchestrator: pending `bundle` calls
(entry, output) queued through `_buildWhenReady`, and templater hooks. -/
structure OrchState where
  bstate : BState
  builders : List (String × String)
  hooks : List (String × RenderCtx)
deriving DecidableEq, Repr

/-- `ClientJS.includeScript(templateName, script)` (src/index.js:165-178):
register a `renderContext` hook supplying the served URL, and queue
`() => this.bundle(script, outputPath)` with `outputPath = basename script`. -/
def includeScript (cfg : Config) (os : OrchState) (templateName script : String) : OrchState :=
  { os with
    hooks := os.hooks ++ [("renderContext." ++ templateName, includeScriptCtx cfg script)],
    builders := os.builders ++ [(script, basename script)] }

/-! ### The launch lifecycle gate

`_buildWhenReady` only pushes a builder thunk onto `this._builders`
(src/index.js:150-152).  The constructor (src/index.js:113-118) resolves a
promise on the first `launch` event, which runs `_buildingWhenReady` once
over the builders registered at that point (src/index.js:154-158):
`Promise.mapSeries` in series mode, `Promise.map` in parallel mode, or
nothing at all when `buildNone` is configured.

Build tasks are abstracted by their settled result (`Except String Unit`),
and they are numbered by registration order.  The invocation trace records
an event when task `i` is started and when its promise settles. -/

inductive Ev where
  | start : Nat → Ev
  | settle : Nat → Ev
deriving DecidableEq, Repr

/-- bluebird `Promise.mapSeries` over the builder thunks, the first thunk
carrying index `j`: each task is invoked only after the previous task's
promise has settled; a rejection stops the iteration and becomes the
rejection of the aggregate promise. -/
def runSeriesFrom (j : Nat) : List (Except String Unit) → List Ev × Except String Unit
  | [] => ([], .ok ())
  | r :: rs =>
    match r with
    | .error e => ([.start j, .settle j], .error e)
    | .ok () =>
      let tra := runSeriesFrom (j + 1) rs
      (.start j :: .settle j :: tra.1, tra.2)

/-- The first rejection among the tasks' results, if any: the value
bluebird's `Promise.map` aggregate rejects with. -/
def firstError : List (Except String Unit) → Except String Unit
  | [] => .ok ()
  | .error e :: _ => .error e
  | .ok () :: rs => firstError rs

/-- bluebird `Promise.map` over the builder thunks: every thunk is invoked
(started) in list order before the aggregate settles, each task settles on
its own, and the aggregate rejects exactly when some task rejects (with
the first rejection). One task's failure does not prevent the others from
being invoked or from settling. -/
def runParallel (ts : List (Except String Unit)) : List Ev × Except String Unit :=
  ((List.range ts.length).map Ev.start ++ (List.range ts.length).map Ev.settle,
    firstError ts)

/-- `ClientJS._buildingWhenReady` (src/index.js:154-158): return
immediately when `buildNone` is configured, otherwise drain the registered
builders with `Promise.mapSeries` (series) or `Promise.map` (parallel). -/
def buildingWhenReady (cfg : Config) (builders : List (Except String Unit)) :
    List Ev × Except String Unit :=
  if cfg.buildNone then ([], .ok ())
  else if cfg.buildSeries then runSeriesFrom 0 builders
  else runParallel builders

/-- Observable operations on the gate: registering a build task
(`_buildWhenReady`) and the application emitting `launch`. -/
inductive LOp where
  | register : Except String Unit → LOp
  | launch : LOp
deriving DecidableEq, Repr

/-- Gate state: the `_builders` list, whether the one-shot launch promise
has already resolved, and the invocation trace so far. -/
structure LState where
  builders : List (Except String Unit)
  launched : Bool
  trace : List Ev
deriving DecidableEq, Repr

def linit : LState := { builders := [], launched := false, trace := [] }

/-- One step of the gate. `register` only appends to `_builders`
(src/index.js:150-152). The first `launch` resolves the constructor's
promise, running `_buildingWhenReady` over the builders registered so far;
later `launch` events call `resolve()` on an already-settled promise, a
no-op (src/index.js:113-118). -/
def lstep (cfg : Config) (s : LState) : LOp → LState
  | .register r => { s with builders := s.builders ++ [r] }
  | .launch =>
    if s.launched then s
    else
      { s with launched := true,
               trace := s.trace ++ (buildingWhenReady cfg s.builders).1 }

def lexecFrom (cfg : Config) (s : LState) (ops : List LOp) : LState :=
  ops.foldl (lstep cfg) s

def lexec (cfg : Config) (ops : List LOp) : LState :=
  lexecFrom cfg linit ops

/-- The tasks registered by a sequence of operations, in order. -/
def regs (ops : List LOp) : List (Except String Unit) :=
  ops.filterMap fun op => match op with | .register r => some r | .launch => none

/-- The index of a `start` event, used to read the order in which tasks
were invoked off a trace. -/
def evStart : Ev → Option Nat
  | .start i => some i
  | .settle _ => none

/-- The trace `Promise.mapSeries` produces on `n` successful tasks starting
at index `j`: start/settle pairs in registration order. -/
def pairs (j : Nat) : Nat → List Ev
  | 0 => []
  | n + 1 => Ev.start j :: Ev.settle j :: pairs (j + 1) n

/-! ### Shared facts about `bundle`'s memoisation -/

lemma establishRoute_outputPaths (s : BState) (r d : String) :
    (establishRoute s r d).outputPaths = s.outputPaths := by
  unfold establishRoute; split <;> rfl

lemma establishRoute_files (s : BState) (r d : String) :
    (establishRoute s r d).files = s.files := by
  unfold establishRoute; split <;> rfl

/-- On a memo hit `bundle` returns the stored result, touches nothing and
starts no build. -/
lemma bundle_lookup_some {cfg : Config} {wp : WPOracle} {s : BState} {e o : String}
    {r : Except String Unit}
    (h : s.outputPaths.lookup (outputFileKey cfg o) = some r) :
    bundle cfg wp s e o = (s, r, false) := by
  simp only [outputFileKey] at h
  simp only [bundle, h]

/-- On a memo miss `bundle` starts a build and stores its settled result
under the output-file key. -/
lemma bundle_lookup_none {cfg : Config} {wp : WPOracle} {s : BState} {e o : String}
    (h : s.outputPaths.lookup (outputFileKey cfg o) = none) :
    (bundle cfg wp s e o).1.outputPaths
      = (outputFileKey cfg o, (bundle cfg wp s e o).2.1) :: s.outputPaths ∧
    (bundle cfg wp s e o).2.2 = true := by
  simp only [outputFileKey] at h ⊢
  simp only [bundle, h, establishRoute_outputPaths]
  constructor <;> trivial

/-- After any `bundle` call the memo maps the output-file key to the result
that call returned. -/
lemma bundle_stores_result (cfg : Config) (wp : WPOracle) (s : BState) (e o : String) :
    (bundle cfg wp s e o).1.outputPaths.lookup (outputFileKey cfg o)
      = some (bundle cfg wp s e o).2.1 := by
  cases h : s.outputPaths.lookup (outputFileKey cfg o) with
  | some r => rw [bundle_lookup_some h]; exact h
  | none =>
    rw [(bundle_lookup_none h).1]
    simp [List.lookup]

/-- A `bundle` call whose output canonicalises to the key of an earlier
call is a memo hit: it changes nothing, returns the earlier call's result
and starts no build. -/
lemma bundle_second_call {cfg : Config} {wp : WPOracle} {s : BState}
    {e1 e2 o1 o2 : String} (h : outputFileKey cfg o1 = outputFileKey cfg o2) :
    bundle cfg wp (bundle cfg wp s e1 o1).1 e2 o2
      = ((bundle cfg wp s e1 o1).1, (bundle cfg wp s e1 o1).2.1, false) := by
  have hs := bundle_stores_result cfg wp s e1 o1
  rw [h] at hs
  exact bundle_lookup_some hs

/-! ### Sample data used by the witnesses -/

def sampleConfig : Config :=
  { routePrefix := "/assets/clientjs", assetFolder := ".tmp/clientjs", cwd := "/app",
    buildSeries := false, buildOnly := false, buildNone := false }

def sampleSeriesConfig : Config :=
  { sampleConfig with buildSeries := true }

def wpAllOk : WPOracle := fun _ _ _ => .success []

/-! ### C1 -/

/-- C1: calling `bundle` a second time with the same canonicalised
output-file key returns the stored result of the first call without
starting another webpack build — the build for a key is started at most
once (here: by the first call, when the key is fresh), and both calls
observe the same settled result. -/
theorem bundle_memoizes_output_key (cfg : Config) (wp : WPOracle) (s : BState)
    (e1 e2 o1 o2 : String) (h : outputFileKey cfg o1 = outputFileKey cfg o2)
    (hfresh : s.outputPaths.lookup (outputFileKey cfg o1) = none) :
    (bundle cfg wp (bundle cfg wp s e1 o1).1 e2 o2).2.2 = false ∧
    (bundle cfg wp (bundle cfg wp s e1 o1).1 e2 o2).2.1 = (bundle cfg wp s e1 o1).2.1 ∧
    (bundle cfg wp s e1 o1).2.2 = true := by
  rw [bundle_second_call h]
  exact ⟨rfl, rfl, (bundle_lookup_none hfresh).2⟩

theorem bundle_memoizes_output_key_witness :
    outputFileKey sampleConfig "a.js" = outputFileKey sampleConfig "/a.js" ∧
    emptyBState.outputPaths.lookup (outputFileKey sampleConfig "a.js") = none ∧
    (bundle sampleConfig wpAllOk
        (bundle sampleConfig wpAllOk emptyBState "src/a.js" "a.js").1 "src/other.js" "/a.js").2.2
      = false ∧
    (bundle sampleConfig wpAllOk
        (bundle sampleConfig wpAllOk emptyBState "src/a.js" "a.js").1 "src/other.js" "/a.js").2.1
      = (bundle sampleConfig wpAllOk emptyBState "src/a.js" "a.js").2.1 ∧
    (bundle sampleConfig wpAllOk emptyBState "src/a.js" "a.js").2.2 = true := by
  have h := bundle_memoizes_output_key sampleConfig wpAllOk emptyBState
    "src/a.js" "src/other.js" "a.js" "/a.js" (by decide) (by decide)
  exact ⟨by decide, by decide, h.1, h.2.1, h.2.2⟩

/-! ### C9: slash canonicalisation of the `output` argument -/

lemma startsWithSlash_slash_append (o : String) : startsWithSlash ("/" ++ o) = true := by
  simp [startsWithSlash, String.toList, String.data_append]

lemma canonOutput_of_not_slash {o : String} (hne : o ≠ "") (hs : startsWithSlash o = false) :
    canonOutput o = "/" ++ o := by
  simp [canonOutput, hne, hs]

lemma canonOutput_slash_append (o : String) : canonOutput ("/" ++ o) = "/" ++ o := by
  simp [canonOutput, startsWithSlash_slash_append]

/-- C9 (amended): for every nonempty output string `o` not starting with
`'/'`, `bundle e o` and `bundle e ('/' ++ o)` compute the same output-file
key, and the second call returns the first call's memoised result without
starting a new build. (The nonemptiness hypothesis is forced by the code's
JS truthiness guard, see the counterexample.) -/
theorem bundle_slash_canonicalization (cfg : Config) (wp : WPOracle) (s : BState)
    (e1 e2 o : String) (hne : o ≠ "") (hs : startsWithSlash o = false) :
    outputFileKey cfg o = outputFileKey cfg ("/" ++ o) ∧
    (bundle cfg wp (bundle cfg wp s e1 o).1 e2 ("/" ++ o)).2.2 = false ∧
    (bundle cfg wp (bundle cfg wp s e1 o).1 e2 ("/" ++ o)).2.1 = (bundle cfg wp s e1 o).2.1 := by
  have hk : outputFileKey cfg o = outputFileKey cfg ("/" ++ o) := by
    simp [outputFileKey, canonOutput_of_not_slash hne hs, canonOutput_slash_append]
  exact ⟨hk, by rw [bundle_second_call hk], by rw [bundle_second_call hk]⟩

/-- C9 counterexample: the empty output string does not start with `'/'`,
yet `bundle e ""` and `bundle e ("/" ++ "")` compute different output-file
keys, and the second call starts a new build instead of returning the
memoised result — `output && output[0] !== '/'` skips the empty (falsy)
string. -/
theorem bundle_empty_output_counterexample :
    startsWithSlash "" = false ∧
    outputFileKey sampleConfig "" ≠ outputFileKey sampleConfig ("/" ++ "") ∧
    (bundle sampleConfig wpAllOk (bundle sampleConfig wpAllOk emptyBState "src/e.js" "").1
        "src/e.js" ("/" ++ "")).2.2 = true := by decide

theorem bundle_slash_canonicalization_witness :
    "a.js" ≠ "" ∧ startsWithSlash "a.js" = false ∧
    (outputFileKey sampleConfig "a.js" = outputFileKey sampleConfig ("/" ++ "a.js") ∧
     (bundle sampleConfig wpAllOk
         (bundle sampleConfig wpAllOk emptyBState "e1" "a.js").1 "e2" ("/" ++ "a.js")).2.2
       = false ∧
     (bundle sampleConfig wpAllOk
         (bundle sampleConfig wpAllOk emptyBState "e1" "a.js").1 "e2" ("/" ++ "a.js")).2.1
       = (bundle sampleConfig wpAllOk emptyBState "e1" "a.js").2.1) :=
  ⟨by decide, by decide,
   bundle_slash_canonicalization sampleConfig wpAllOk emptyBState "e1" "e2" "a.js"
     (by decide) (by decide)⟩

/-! ### C10: `includeScript` keys everything on the script's basename -/

/-- C10: `includeScript` derives the served output path from the script's
basename only, ignoring the template name: any two calls whose scripts
share a basename wire their templates to the same served URL (the route
prefix joined with the basename), register bundle tasks for the same
output path, and those tasks resolve to the same single memoised build
even when the source files differ. -/
theorem includeScript_keyed_by_basename (cfg : Config) (wp : WPOracle) (st : BState)
    (os1 : OrchState) (t1 t2 s1 s2 : String) (h : basename s1 = basename s2) :
    includeScriptCtx cfg s1 = includeScriptCtx cfg s2 ∧
    (includeScriptCtx cfg s1).scripts = [joinPath cfg.routePrefix (basename s1)] ∧
    (includeScript cfg os1 t1 s1).builders = os1.builders ++ [(s1, basename s1)] ∧
    (includeScript cfg os1 t1 s1).hooks
      = os1.hooks ++ [("renderContext." ++ t1, includeScriptCtx cfg s1)] ∧
    (includeScript cfg (includeScript cfg os1 t1 s1) t2 s2).builders
      = os1.builders ++ [(s1, basename s1), (s2, basename s2)] ∧
    (bundle cfg wp (bundle cfg wp st s1 (basename s1)).1 s2 (basename s2)).2.2 = false ∧
    (bundle cfg wp (bundle cfg wp st s1 (basename s1)).1 s2 (basename s2)).2.1
      = (bundle cfg wp st s1 (basename s1)).2.1 := by
  have hk : outputFileKey cfg (basename s1) = outputFileKey cfg (basename s2) := by rw [h]
  refine ⟨by simp [includeScriptCtx, h], rfl, rfl, rfl, by simp [includeScript], ?_, ?_⟩ <;>
    rw [bundle_second_call hk]

theorem includeScript_keyed_by_basename_witness :
    basename "/one/app.js" = basename "/two/app.js" ∧
    (includeScriptCtx sampleConfig "/one/app.js" = includeScriptCtx sampleConfig "/two/app.js" ∧
     (includeScriptCtx sampleConfig "/one/app.js").scripts
       = [joinPath sampleConfig.routePrefix (basename "/one/app.js")] ∧
     (includeScript sampleConfig ⟨emptyBState, [], []⟩ "tmpl-one" "/one/app.js").builders
       = [] ++ [("/one/app.js", basename "/one/app.js")] ∧
     (includeScript sampleConfig ⟨emptyBState, [], []⟩ "tmpl-one" "/one/app.js").hooks
       = [] ++ [("renderContext." ++ "tmpl-one", includeScriptCtx sampleConfig "/one/app.js")] ∧
     (includeScript sampleConfig
         (includeScript sampleConfig ⟨emptyBState, [], []⟩ "tmpl-one" "/one/app.js")
         "tmpl-two" "/two/app.js").builders
       = [] ++ [("/one/app.js", basename "/one/app.js"), ("/two/app.js", basename "/two/app.js")] ∧
     (bundle sampleConfig wpAllOk
         (bundle sampleConfig wpAllOk emptyBState "/one/app.js" (basename "/one/app.js")).1
         "/two/app.js" (basename "/two/app.js")).2.2 = false ∧
     (bundle sampleConfig wpAllOk
         (bundle sampleConfig wpAllOk emptyBState "/one/app.js" (basename "/one/app.js")).1
         "/two/app.js" (basename "/two/app.js")).2.1
       = (bundle sampleConfig wpAllOk emptyBState "/one/app.js" (basename "/one/app.js")).2.1) :=
  ⟨by decide,
   includeScript_keyed_by_basename sampleConfig wpAllOk emptyBState ⟨emptyBState, [], []⟩
     "tmpl-one" "tmpl-two" "/one/app.js" "/two/app.js" (by decide)⟩

/-! ### C6: behaviour of `bundle` on build failures -/

def wpFatalBoom : WPOracle := fun _ _ _ => .fatal "boom"

def bstateWithOutput : BState := { emptyBState with files := [".tmp/clientjs/c.js"] }

/-- C6 counterexample: when webpack reports a fatal error (the `err`
argument of the callback), the promise rejects with that error but the
previously-written file at the output path is NOT removed — the removal
only happens on the `stats.hasErrors()` branch, so the claim fails for
this kind of build failure. -/
theorem bundle_fatal_keeps_file_counterexample :
    outputFileKey sampleConfig "c.js" = ".tmp/clientjs/c.js" ∧
    ".tmp/clientjs/c.js" ∈ bstateWithOutput.files ∧
    (bundle sampleConfig wpFatalBoom bstateWithOutput "src/c.js" "c.js").2.1
      = Except.error "boom" ∧
    ".tmp/clientjs/c.js"
      ∈ (bundle sampleConfig wpFatalBoom bstateWithOutput "src/c.js" "c.js").1.files := by
  decide

/-- C6 (amended): when a fresh build for an output path fails, the future
`bundle` returns rejects; on a fatal webpack error it rejects with that
same error and leaves the filesystem untouched, while on compilation
errors (`stats.hasErrors()`) it removes any previously-written file at the
output path and rejects with an error built from the error list; on
success the output file is present. -/
theorem bundle_failure_semantics (cfg : Config) (wp : WPOracle) (s : BState) (e o : String)
    (hfresh : s.outputPaths.lookup (outputFileKey cfg o) = none) :
    (∀ err, wp e (resolvePath cfg.cwd (cfg.assetFolder ++ dirname (canonOutput o)))
        (basename (cfg.assetFolder ++ canonOutput o)) = .fatal err →
      (bundle cfg wp s e o).2.1 = .error err ∧
      (bundle cfg wp s e o).1.files = s.files) ∧
    (∀ errs, wp e (resolvePath cfg.cwd (cfg.assetFolder ++ dirname (canonOutput o)))
        (basename (cfg.assetFolder ++ canonOutput o)) = .compileErrors errs →
      (bundle cfg wp s e o).2.1 = .error (String.intercalate "," errs) ∧
      (cfg.assetFolder ++ canonOutput o) ∉ (bundle cfg wp s e o).1.files) ∧
    (∀ ws, wp e (resolvePath cfg.cwd (cfg.assetFolder ++ dirname (canonOutput o)))
        (basename (cfg.assetFolder ++ canonOutput o)) = .success ws →
      (bundle cfg wp s e o).2.1 = .ok () ∧
      (cfg.assetFolder ++ canonOutput o) ∈ (bundle cfg wp s e o).1.files) := by
  simp only [outputFileKey] at hfresh
  refine ⟨fun err hwp => ?_, fun errs hwp => ?_, fun ws hwp => ?_⟩ <;>
    simp only [bundle, hfresh, hwp, establishRoute_files] <;> constructor <;>
    first
    | trivial
    | simp
    | (split <;> simp_all)

theorem bundle_failure_semantics_witness :
    bstateWithOutput.outputPaths.lookup (outputFileKey sampleConfig "c.js") = none ∧
    (bundle sampleConfig wpFatalBoom bstateWithOutput "src/c.js" "c.js").2.1
      = Except.error "boom" ∧
    (bundle sampleConfig wpFatalBoom bstateWithOutput "src/c.js" "c.js").1.files
      = bstateWithOutput.files := by
  have h := bundle_failure_semantics sampleConfig wpFatalBoom bstateWithOutput
    "src/c.js" "c.js" (by decide)
  exact ⟨by decide, (h.1 "boom" (by decide)).1, (h.1 "boom" (by decide)).2⟩

/-! ### C5: `_establishRoute` deduplicates by route, not by directory -/

/-- C5 counterexample: two different canonical outputs (`"/x/../y.js"` and
`"/y.js"`) produce two different route keys that both resolve to the local
directory `/app/.tmp/clientjs`, so `router.staticRoute` is called twice
with that directory — the registry is keyed by route, not by directory. -/
theorem establishRoute_per_directory_counterexample :
    ((bundle sampleConfig wpAllOk
        (bundle sampleConfig wpAllOk emptyBState "e1" "/x/../y.js").1
        "e2" "/y.js").1.staticRouteCalls.countP
      (fun c => c.2 == "/app/.tmp/clientjs")) = 2 := by decide

lemma establishRoute_established {s : BState} {r : String} (d : String)
    (h : (s.establishedRoutes.lookup r).isSome) : establishRoute s r d = s := by
  unfold establishRoute; simp [h]

lemma establishRoute_fresh {s : BState} {r : String} (d : String)
    (h : s.establishedRoutes.lookup r = none) :
    establishRoute s r d =
      { s with dirs := if d ∈ s.dirs then s.dirs else d :: s.dirs,
               staticRouteCalls := s.staticRouteCalls ++ [(r, d)],
               establishedRoutes := (r, d) :: s.establishedRoutes } := by
  unfold establishRoute; simp [h]

/-- The per-route bookkeeping invariant `_establishRoute` maintains:
`router.staticRoute` has been called exactly once for each established
route and never for any other route. -/
def RouteInv (s : BState) : Prop :=
  forall r : String, s.staticRouteCalls.countP (fun c => c.1 == r)
    = if (s.establishedRoutes.lookup r).isSome then 1 else 0

lemma routeInv_empty : RouteInv emptyBState := by
  intro r; simp [emptyBState]

lemma routeInv_establishRoute {s : BState} (h : RouteInv s) (r d : String) :
    RouteInv (establishRoute s r d) := by
  by_cases hl : (s.establishedRoutes.lookup r).isSome
  · rw [establishRoute_established d hl]; exact h
  · rw [Option.not_isSome_iff_eq_none] at hl
    rw [establishRoute_fresh d hl]
    intro r'
    simp only [List.countP_append, List.countP_cons, List.countP_nil]
    by_cases hrr : r' = r
    · subst hrr
      have hc := h r'
      rw [hl] at hc
      simp only [Option.isSome_none, Bool.false_eq_true, if_false] at hc
      simp [hc, List.lookup]
    · have hb : (r == r') = false := beq_eq_false_iff_ne.mpr (fun hh => hrr hh.symm)
      have hlk : List.lookup r' ((r, d) :: s.establishedRoutes)
          = List.lookup r' s.establishedRoutes := by
        simp [List.lookup, beq_eq_false_iff_ne.mpr hrr]
      simp [hb, h r']
      rw [hlk]

lemma routeInv_execRoutes {s : BState} (h : RouteInv s) (calls : List (String × String)) :
    RouteInv (execRoutes s calls) := by
  induction calls generalizing s with
  | nil => exact h
  | cons c cs ih => exact ih (routeInv_establishRoute h c.1 c.2)

/-- C5 (amended): `_establishRoute` deduplicates by its route argument:
calling it twice with the same arguments is idempotent and calls
`router.staticRoute` exactly once, a fresh call ensures the directory
exists before registering it, and over any sequence of calls starting from
a fresh module each route is passed to `router.staticRoute` at most once.
(At most once per *directory* does not hold, see the counterexample.) -/
theorem establishRoute_dedups_by_route (s : BState) (r d : String)
    (calls : List (String × String)) :
    establishRoute (establishRoute s r d) r d = establishRoute s r d ∧
    (s.establishedRoutes.lookup r = none →
      (establishRoute s r d).staticRouteCalls = s.staticRouteCalls ++ [(r, d)] ∧
      d ∈ (establishRoute s r d).dirs) ∧
    (execRoutes emptyBState calls).staticRouteCalls.countP (fun c => c.1 == r) ≤ 1 := by
  refine ⟨?_, ?_, ?_⟩
  · by_cases hl : (s.establishedRoutes.lookup r).isSome
    · rw [establishRoute_established d hl, establishRoute_established d hl]
    · rw [Option.not_isSome_iff_eq_none] at hl
      rw [establishRoute_fresh d hl]
      apply establishRoute_established
      simp [List.lookup]
  · intro hnone
    rw [establishRoute_fresh d hnone]
    exact ⟨rfl, by split <;> simp_all⟩
  · rw [routeInv_execRoutes routeInv_empty calls r]
    split <;> simp

theorem establishRoute_dedups_by_route_witness :
    emptyBState.establishedRoutes.lookup "/assets/clientjs" = none ∧
    establishRoute (establishRoute emptyBState "/assets/clientjs" ".tmp/clientjs")
        "/assets/clientjs" ".tmp/clientjs"
      = establishRoute emptyBState "/assets/clientjs" ".tmp/clientjs" ∧
    (establishRoute emptyBState "/assets/clientjs" ".tmp/clientjs").staticRouteCalls
      = emptyBState.staticRouteCalls ++ [("/assets/clientjs", ".tmp/clientjs")] ∧
    ".tmp/clientjs" ∈ (establishRoute emptyBState "/assets/clientjs" ".tmp/clientjs").dirs ∧
    (execRoutes emptyBState
        [("/assets/clientjs", ".tmp/clientjs"),
         ("/assets/clientjs", ".tmp/clientjs")]).staticRouteCalls.countP
      (fun c => c.1 == "/assets/clientjs") ≤ 1 := by
  have h := establishRoute_dedups_by_route emptyBState "/assets/clientjs" ".tmp/clientjs"
    [("/assets/clientjs", ".tmp/clientjs"), ("/assets/clientjs", ".tmp/clientjs")]
  exact ⟨by decide, h.1, (h.2.1 (by decide)).1, (h.2.1 (by decide)).2, h.2.2⟩

/-! ### The gate's invocation traces: series and parallel lemmas -/

lemma start_mem_pairs {k j n : Nat} : Ev.start k ∈ pairs j n ↔ j ≤ k ∧ k < j + n := by
  induction n generalizing j with
  | zero => simp [pairs]
  | succ m ih =>
    rw [pairs]
    simp only [List.mem_cons, ih]
    constructor
    · rintro (h | h | ⟨h1, h2⟩)
      · cases h; omega
      · cases h
      · omega
    · rintro ⟨h1, h2⟩
      by_cases hk : k = j
      · exact Or.inl (by rw [hk])
      · exact Or.inr (Or.inr ⟨by omega, by omega⟩)

lemma filterMap_evStart_pairs (n j : Nat) :
    (pairs j n).filterMap evStart = List.range' j n := by
  induction n generalizing j with
  | zero => simp [pairs]
  | succ m ih =>
    rw [pairs, List.range']
    simp [List.filterMap_cons, evStart, ih (j + 1)]

lemma count_evStart (l : List Ev) (k : Nat) :
    (l.filterMap evStart).count k = l.count (Ev.start k) := by
  induction l with
  | nil => rfl
  | cons e l ih =>
    cases e with
    | start i => simp [evStart, List.filterMap_cons, List.count_cons, ih]
    | settle i => simp [evStart, List.filterMap_cons, List.count_cons, ih]

lemma count_range' (k j n : Nat) :
    (List.range' j n).count k = if j ≤ k ∧ k < j + n then 1 else 0 := by
  by_cases h : k ∈ List.range' j n
  · rw [List.count_eq_one_of_mem (List.nodup_range' j n) h, if_pos (List.mem_range'_1.mp h)]
  · rw [List.count_eq_zero_of_not_mem h, if_neg (fun hc => h (List.mem_range'_1.mpr hc))]

lemma count_start_pairs (k j n : Nat) :
    (pairs j n).count (Ev.start k) = if j ≤ k ∧ k < j + n then 1 else 0 := by
  rw [← count_evStart, filterMap_evStart_pairs, count_range']

lemma runSeriesFrom_all_ok {ts : List (Except String Unit)} (h : ∀ r ∈ ts, r = .ok ())
    (j : Nat) : runSeriesFrom j ts = (pairs j ts.length, .ok ()) := by
  induction ts generalizing j with
  | nil => rfl
  | cons r rs ih =>
    have hr : r = .ok () := h r (List.mem_cons_self r rs)
    subst hr
    rw [runSeriesFrom, ih (fun x hx => h x (List.mem_cons_of_mem _ hx)) (j + 1)]
    rfl

lemma runSeriesFrom_split {os : List (Except String Unit)} (h : ∀ r ∈ os, r = .ok ())
    (e : String) (rest : List (Except String Unit)) (j : Nat) :
    runSeriesFrom j (os ++ .error e :: rest)
      = (pairs j os.length ++ [.start (j + os.length), .settle (j + os.length)],
         .error e) := by
  induction os generalizing j with
  | nil => simp [runSeriesFrom, pairs]
  | cons r rs ih =>
    have hr : r = .ok () := h r (List.mem_cons_self r rs)
    subst hr
    rw [List.cons_append, runSeriesFrom,
      ih (fun x hx => h x (List.mem_cons_of_mem _ hx)) (j + 1)]
    have hidx : j + 1 + rs.length = j + (rs.length + 1) := by omega
    simp [pairs, hidx]

/-- Any task list is either all-successful or splits at its first
rejection. -/
lemma firstErrorSplit (ts : List (Except String Unit)) :
    (∀ r ∈ ts, r = .ok ()) ∨
    ∃ os e rest, ts = os ++ .error e :: rest ∧ ∀ r ∈ os, r = .ok () := by
  induction ts with
  | nil => exact Or.inl (by simp)
  | cons r rs ih =>
    cases r with
    | error e => exact Or.inr ⟨[], e, rs, rfl, by simp⟩
    | ok u =>
      cases u
      rcases ih with hall | ⟨os, e, rest, heq, hok⟩
      · refine Or.inl ?_
        intro x hx
        rcases List.mem_cons.mp hx with hx | hx
        · rw [hx]
        · exact hall x hx
      · refine Or.inr ⟨.ok () :: os, e, rest, by rw [heq]; rfl, ?_⟩
        intro x hx
        rcases List.mem_cons.mp hx with hx | hx
        · rw [hx]
        · exact hok x hx

lemma runSeriesFrom_cons_ok (j : Nat) (rs : List (Except String Unit)) :
    runSeriesFrom j (.ok () :: rs)
      = (.start j :: .settle j :: (runSeriesFrom (j + 1) rs).1,
         (runSeriesFrom (j + 1) rs).2) := rfl

lemma runSeriesFrom_cons_error (j : Nat) (e : String) (rs : List (Except String Unit)) :
    runSeriesFrom j (.error e :: rs) = ([.start j, .settle j], .error e) := rfl

/-- In series mode, the task at (absolute) index `j + i + 1` is started
only strictly after the task at index `j + i` has settled. -/
lemma series_start_after_settle (ts : List (Except String Unit)) (j i : Nat)
    (h : Ev.start (j + i + 1) ∈ (runSeriesFrom j ts).1) :
    ∃ p q, (runSeriesFrom j ts).1 = p ++ Ev.settle (j + i) :: q ∧
      Ev.start (j + i + 1) ∉ p ∧ Ev.start (j + i + 1) ∈ q := by
  induction ts generalizing j i with
  | nil => simp [runSeriesFrom] at h
  | cons r rs ih =>
    cases r with
    | error e =>
      rw [runSeriesFrom_cons_error] at h
      rcases List.mem_cons.mp h with hc | hc
      · cases hc
      · rcases List.mem_cons.mp hc with hc | hc
        · cases hc
        · simp at hc
    | ok u =>
      cases u
      rw [runSeriesFrom_cons_ok] at h ⊢
      cases i with
      | zero =>
        have hq : Ev.start (j + 0 + 1) ∈ (runSeriesFrom (j + 1) rs).1 := by
          rcases List.mem_cons.mp h with hc | hc
          · cases hc
          · rcases List.mem_cons.mp hc with hc | hc
            · cases hc
            · exact hc
        refine ⟨[Ev.start j], (runSeriesFrom (j + 1) rs).1, by simp, ?_, hq⟩
        intro hc
        rcases List.mem_cons.mp hc with hc | hc
        · cases hc
        · simp at hc
      | succ i' =>
        have hmem : Ev.start (j + 1 + i' + 1) ∈ (runSeriesFrom (j + 1) rs).1 := by
          rcases List.mem_cons.mp h with hc | hc
          · cases hc
          · rcases List.mem_cons.mp hc with hc | hc
            · cases hc
            · have : j + (i' + 1) + 1 = j + 1 + i' + 1 := by omega
              rwa [this] at hc
        rcases ih (j + 1) i' hmem with ⟨p', q', heq, hnp, hq⟩
        have hidx : j + 1 + i' = j + (i' + 1) := by omega
        refine ⟨Ev.start j :: Ev.settle j :: p', q', ?_, ?_, ?_⟩
        · rw [heq, ← hidx]; rfl
        · intro hc
          rcases List.mem_cons.mp hc with hc | hc
          · cases hc
          · rcases List.mem_cons.mp hc with hc | hc
            · cases hc
            · rw [show j + (i' + 1) + 1 = j + 1 + i' + 1 by omega] at hc
              exact hnp hc
        · rw [show j + (i' + 1) + 1 = j + 1 + i' + 1 by omega]
          exact hq

/-- Everything before the task that starts at index `k` succeeded. -/
lemma series_start_mem_take {ts : List (Except String Unit)} {k : Nat}
    (h : Ev.start k ∈ (runSeriesFrom 0 ts).1) : ∀ r ∈ ts.take k, r = .ok () := by
  rcases firstErrorSplit ts with hall | ⟨os, e, rest, heq, hok⟩
  · exact fun r hr => hall r (List.take_subset k ts hr)
  · subst heq
    rw [runSeriesFrom_split hok e rest 0] at h
    have hk : k ≤ os.length := by
      rcases List.mem_append.mp h with hm | hm
      · have := (start_mem_pairs.mp hm).2; omega
      · rcases List.mem_cons.mp hm with hc | hc
        · have := Ev.start.inj hc; omega
        · rcases List.mem_cons.mp hc with hc | hc
          · cases hc
          · simp at hc
    intro r hr
    rw [List.take_append_of_le_length hk] at hr
    exact hok r (List.take_subset k os hr)



/-- C3: in series mode, for any registered task list, a task never begins
before its predecessor's future settles (the trace splits at the
predecessor's settle event, with the successor's start strictly after),
tasks are invoked in registration order (the started indices form an
initial range), a rejection at any position prevents every later task from
being invoked, and the first rejection propagates as the rejection of the
aggregate `_buildingWhenReady` returns. -/
theorem series_mode_order_and_failfast (ts : List (Except String Unit)) :
    (∀ i, Ev.start (i + 1) ∈ (runSeriesFrom 0 ts).1 →
      ∃ p q, (runSeriesFrom 0 ts).1 = p ++ Ev.settle i :: q ∧
        Ev.start (i + 1) ∉ p ∧ Ev.start (i + 1) ∈ q) ∧
    (∃ k, (runSeriesFrom 0 ts).1.filterMap evStart = List.range' 0 k) ∧
    (∀ pre e post k, ts = pre ++ .error e :: post → pre.length < k →
      Ev.start k ∉ (runSeriesFrom 0 ts).1) ∧
    (∀ pre e post, ts = pre ++ .error e :: post → (∀ r ∈ pre, r = .ok ()) →
      (runSeriesFrom 0 ts).2 = .error e) ∧
    (∀ cfg : Config, cfg.buildNone = false → cfg.buildSeries = true →
      buildingWhenReady cfg ts = runSeriesFrom 0 ts) := by
  refine ⟨?_, ?_, ?_, ?_, ?_⟩
  · intro i hi
    have h0 : Ev.start (0 + i + 1) ∈ (runSeriesFrom 0 ts).1 := by rwa [Nat.zero_add]
    rcases series_start_after_settle ts 0 i h0 with ⟨p, q, heq, hp, hq⟩
    rw [Nat.zero_add] at heq hp hq
    exact ⟨p, q, heq, hp, hq⟩
  · rcases firstErrorSplit ts with hall | ⟨os, e, rest, heq, hok⟩
    · refine ⟨ts.length, ?_⟩
      rw [runSeriesFrom_all_ok hall 0]
      exact filterMap_evStart_pairs ts.length 0
    · subst heq
      refine ⟨os.length + 1, ?_⟩
      rw [runSeriesFrom_split hok e rest 0]
      show (pairs 0 os.length
        ++ [Ev.start (0 + os.length), Ev.settle (0 + os.length)]).filterMap evStart = _
      rw [List.filterMap_append, filterMap_evStart_pairs]
      simp [evStart, List.range'_1_concat]
  · intro pre e post k heq hk hmem
    have htake := series_start_mem_take hmem
    subst heq
    have hmem2 : (Except.error e : Except String Unit)
        ∈ (pre ++ .error e :: post).take k := by
      rw [List.take_append_eq_append_take]
      refine List.mem_append.mpr (Or.inr ?_)
      cases hkk : k - pre.length with
      | zero => omega
      | succ m => simp [List.take]
    exact absurd (htake _ hmem2) (by simp)
  · intro pre e post heq hok
    subst heq
    rw [runSeriesFrom_split hok e post 0]
  · intro cfg h1 h2
    simp [buildingWhenReady, h1, h2]

theorem series_mode_order_and_failfast_witness :
    Ev.start 1 ∈ (runSeriesFrom 0 [.ok (), .error "boom", .ok ()]).1 ∧
    (∃ p q, (runSeriesFrom 0 [.ok (), .error "boom", .ok ()]).1
        = p ++ Ev.settle 0 :: q ∧ Ev.start 1 ∉ p ∧ Ev.start 1 ∈ q) ∧
    Ev.start 2 ∉ (runSeriesFrom 0 [.ok (), .error "boom", .ok ()]).1 ∧
    (runSeriesFrom 0 [.ok (), .error "boom", .ok ()]).2 = .error "boom" ∧
    buildingWhenReady sampleSeriesConfig [.ok (), .error "boom", .ok ()]
      = runSeriesFrom 0 [.ok (), .error "boom", .ok ()] := by
  have h := series_mode_order_and_failfast [.ok (), .error "boom", .ok ()]
  exact ⟨by decide, h.1 0 (by decide),
    h.2.2.1 [.ok ()] "boom" [.ok ()] 2 rfl (by decide),
    h.2.2.2.1 [.ok ()] "boom" [.ok ()] rfl (by decide),
    h.2.2.2.2 sampleSeriesConfig rfl rfl⟩



lemma count_start_map_start (xs : List Nat) (i : Nat) :
    (xs.map Ev.start).count (Ev.start i) = xs.count i := by
  induction xs with
  | nil => rfl
  | cons x xs ih =>
    simp only [List.map_cons, List.count_cons, ih, beq_iff_eq, Ev.start.injEq]

lemma count_start_map_settle (xs : List Nat) (i : Nat) :
    (xs.map Ev.settle).count (Ev.start i) = 0 := by
  induction xs with
  | nil => rfl
  | cons x xs ih =>
    simp [List.count_cons, ih]

lemma count_start_runParallel (ts : List (Except String Unit)) (i : Nat) :
    (runParallel ts).1.count (Ev.start i) = if i < ts.length then 1 else 0 := by
  rw [runParallel]
  show ((List.range ts.length).map Ev.start
    ++ (List.range ts.length).map Ev.settle).count (Ev.start i) = _
  rw [List.count_append, count_start_map_start, count_start_map_settle,
    List.range_eq_range', count_range']
  simp

/-- C4: in parallel mode, with three tasks of which the second rejects,
all three tasks are invoked exactly once (T1 and T3 are not aborted by
T2's failure) and both T1 and T3 settle; the aggregate rejects with T2's
error — bluebird's `Promise.map` is the all-success aggregate, so the
failure report is exactly the configured behaviour. -/
theorem parallel_mode_no_abort (e : String) :
    (runParallel [.ok (), .error e, .ok ()]).1
      = [Ev.start 0, Ev.start 1, Ev.start 2, Ev.settle 0, Ev.settle 1, Ev.settle 2] ∧
    ((runParallel [.ok (), .error e, .ok ()]).1.count (Ev.start 0) = 1 ∧
     (runParallel [.ok (), .error e, .ok ()]).1.count (Ev.start 1) = 1 ∧
     (runParallel [.ok (), .error e, .ok ()]).1.count (Ev.start 2) = 1) ∧
    (Ev.settle 0 ∈ (runParallel [.ok (), .error e, .ok ()]).1 ∧
     Ev.settle 2 ∈ (runParallel [.ok (), .error e, .ok ()]).1) ∧
    (runParallel [.ok (), .error e, .ok ()]).2 = .error e ∧
    (∀ cfg : Config, cfg.buildNone = false → cfg.buildSeries = false →
      buildingWhenReady cfg [.ok (), .error e, .ok ()]
        = runParallel [.ok (), .error e, .ok ()]) := by
  refine ⟨rfl, ⟨rfl, rfl, rfl⟩, ⟨?_, ?_⟩, rfl, ?_⟩
  · show Ev.settle 0 ∈ [Ev.start 0, Ev.start 1, Ev.start 2,
      Ev.settle 0, Ev.settle 1, Ev.settle 2]
    simp
  · show Ev.settle 2 ∈ [Ev.start 0, Ev.start 1, Ev.start 2,
      Ev.settle 0, Ev.settle 1, Ev.settle 2]
    simp
  · intro cfg h1 h2
    simp [buildingWhenReady, h1, h2]

theorem parallel_mode_no_abort_witness :
    ((runParallel [.ok (), .error "boom", .ok ()]).1.count (Ev.start 0) = 1 ∧
     (runParallel [.ok (), .error "boom", .ok ()]).1.count (Ev.start 1) = 1 ∧
     (runParallel [.ok (), .error "boom", .ok ()]).1.count (Ev.start 2) = 1) ∧
    (runParallel [.ok (), .error "boom", .ok ()]).2 = .error "boom" ∧
    buildingWhenReady sampleConfig [.ok (), .error "boom", .ok ()]
      = runParallel [.ok (), .error "boom", .ok ()] := by
  have h := parallel_mode_no_abort "boom"
  exact ⟨h.2.1, h.2.2.2.1, h.2.2.2.2 sampleConfig rfl rfl⟩



lemma lexecFrom_cons (cfg : Config) (s : LState) (op : LOp) (ops : List LOp) :
    lexecFrom cfg s (op :: ops) = lexecFrom cfg (lstep cfg s op) ops := rfl

/-- A launch-free prefix only accumulates builders: the trace and the gate
flag are untouched. -/
lemma lexecFrom_no_launch {ops : List LOp} (cfg : Config) (s : LState)
    (h : LOp.launch ∉ ops) :
    lexecFrom cfg s ops = { s with builders := s.builders ++ regs ops } := by
  induction ops generalizing s with
  | nil => simp [lexecFrom, regs]
  | cons op ops ih =>
    cases op with
    | register r =>
      rw [lexecFrom_cons, ih _ (fun hc => h (List.mem_cons_of_mem _ hc))]
      simp [lstep, regs, List.filterMap_cons]
    | launch => exact absurd (List.mem_cons_self _ _) h

/-- After the gate has fired, no later operation adds to the trace:
registrations still append to `_builders`, further `launch` events are
no-ops. -/
lemma lexecFrom_launched {ops : List LOp} (cfg : Config) {s : LState}
    (h : s.launched = true) :
    (lexecFrom cfg s ops).trace = s.trace ∧
    (lexecFrom cfg s ops).launched = true ∧
    (lexecFrom cfg s ops).builders = s.builders ++ regs ops := by
  induction ops generalizing s with
  | nil => simp [lexecFrom, regs, h]
  | cons op ops ih =>
    cases op with
    | register r =>
      rw [lexecFrom_cons]
      have := @ih { s with builders := s.builders ++ [r] } h
      simpa [lstep, regs, List.filterMap_cons] using this
    | launch =>
      rw [lexecFrom_cons]
      have hstep : lstep cfg s .launch = s := by simp [lstep, h]
      rw [hstep]
      have := ih h
      simpa [regs, List.filterMap_cons] using this

lemma lexec_registers_then_launch (cfg : Config) (rs : List (Except String Unit)) :
    lexec cfg (rs.map LOp.register ++ [LOp.launch])
      = { builders := rs, launched := true, trace := (buildingWhenReady cfg rs).1 } := by
  have hnl : LOp.launch ∉ rs.map LOp.register := by simp [List.mem_map]
  rw [lexec, lexecFrom, List.foldl_append]
  show lexecFrom cfg (lexecFrom cfg linit (rs.map LOp.register)) [LOp.launch] = _
  rw [lexecFrom_no_launch cfg linit hnl]
  have hregs : regs (rs.map LOp.register) = rs := by
    induction rs with
    | nil => rfl
    | cons r rs ih => simp [regs, List.filterMap_cons] at ih ⊢; exact ih
  rw [hregs]
  simp [lexecFrom, lstep, linit]



/-- C2: registering a build task only appends it to the pending list and
invokes nothing (any launch-free operation sequence produces an empty
invocation trace); once the launch signal fires, every task registered
before it has been invoked exactly once — unconditionally in parallel
mode, and in series mode when the tasks succeed (a series rejection
cuts the tail, see C3). -/
theorem launch_gate_semantics (cfg : Config) (rs : List (Except String Unit)) :
    (∀ (s : LState) (r : Except String Unit),
      lstep cfg s (.register r) = { s with builders := s.builders ++ [r] }) ∧
    (∀ ops : List LOp, LOp.launch ∉ ops → (lexec cfg ops).trace = []) ∧
    (cfg.buildNone = false → cfg.buildSeries = false →
      ∀ i, i < rs.length →
        (lexec cfg (rs.map .register ++ [.launch])).trace.count (Ev.start i) = 1) ∧
    (cfg.buildNone = false → cfg.buildSeries = true → (∀ r ∈ rs, r = .ok ()) →
      ∀ i, i < rs.length →
        (lexec cfg (rs.map .register ++ [.launch])).trace.count (Ev.start i) = 1) := by
  refine ⟨fun s r => rfl, ?_, ?_, ?_⟩
  · intro ops h
    rw [lexec, lexecFrom_no_launch cfg linit h]
    rfl
  · intro h1 h2 i hi
    rw [lexec_registers_then_launch]
    show (buildingWhenReady cfg rs).1.count (Ev.start i) = 1
    simp [buildingWhenReady, h1, h2, count_start_runParallel, hi]
  · intro h1 h2 hok i hi
    rw [lexec_registers_then_launch]
    show (buildingWhenReady cfg rs).1.count (Ev.start i) = 1
    simp only [buildingWhenReady, h1, h2, if_false, if_true, Bool.false_eq_true]
    rw [runSeriesFrom_all_ok hok 0]
    show (pairs 0 rs.length).count (Ev.start i) = 1
    rw [count_start_pairs]
    simp [hi]

theorem launch_gate_semantics_witness :
    lstep sampleConfig linit (.register (.ok ()))
      = { linit with builders := linit.builders ++ [.ok ()] } ∧
    LOp.launch ∉ [LOp.register (.ok ()), LOp.register (.error "x")] ∧
    (lexec sampleConfig [LOp.register (.ok ()), LOp.register (.error "x")]).trace = [] ∧
    (lexec sampleConfig
        ([Except.ok (), Except.error "x"].map LOp.register ++ [LOp.launch])).trace.count
      (Ev.start 0) = 1 ∧
    (lexec sampleConfig
        ([Except.ok (), Except.error "x"].map LOp.register ++ [LOp.launch])).trace.count
      (Ev.start 1) = 1 := by
  have h := launch_gate_semantics sampleConfig [Except.ok (), Except.error "x"]
  exact ⟨h.1 linit (.ok ()), by decide, h.2.1 _ (by decide),
    h.2.2.1 rfl rfl 0 (by decide), h.2.2.1 rfl rfl 1 (by decide)⟩

/-- C7 (amended): a build task registered after the launch signal has
fired is appended to the pending builder list but is never invoked: the
whole invocation trace of any run is exactly the one-time drain of the
tasks registered before the first launch, no matter what operations
follow. -/
theorem late_registration_never_invoked (cfg : Config) (pre post : List LOp)
    (h : LOp.launch ∉ pre) :
    (lexec cfg (pre ++ .launch :: post)).trace = (buildingWhenReady cfg (regs pre)).1 ∧
    (lexec cfg (pre ++ .launch :: post)).builders = regs pre ++ regs post := by
  have h1 : lexecFrom cfg linit pre = { linit with builders := regs pre } :=
    lexecFrom_no_launch cfg linit h
  rw [lexec, lexecFrom, List.foldl_append]
  show (lexecFrom cfg (lexecFrom cfg linit pre) (.launch :: post)).trace = _ ∧
    (lexecFrom cfg (lexecFrom cfg linit pre) (.launch :: post)).builders = _
  rw [h1, lexecFrom_cons]
  have hstep : lstep cfg { linit with builders := regs pre } LOp.launch
      = { builders := regs pre, launched := true,
          trace := (buildingWhenReady cfg (regs pre)).1 } := by
    simp [lstep, linit]
  rw [hstep]
  have hfin := @lexecFrom_launched post cfg
    { builders := regs pre, launched := true,
      trace := (buildingWhenReady cfg (regs pre)).1 } rfl
  exact ⟨hfin.1, hfin.2.2⟩

/-- C7 counterexample: a task registered right after launch does not run
immediately (nor ever): the trace stays `[start 0, settle 0]` while the
pending list holds both tasks. -/
theorem late_registration_counterexample :
    (lexec sampleConfig [.register (.ok ()), .launch, .register (.ok ())]).trace
      = [Ev.start 0, Ev.settle 0] ∧
    Ev.start 1 ∉
      (lexec sampleConfig [.register (.ok ()), .launch, .register (.ok ())]).trace ∧
    (lexec sampleConfig [.register (.ok ()), .launch, .register (.ok ())]).builders
      = [.ok (), .ok ()] := by decide

theorem late_registration_never_invoked_witness :
    LOp.launch ∉ [LOp.register (Except.ok ())] ∧
    ((lexec sampleConfig
        ([LOp.register (.ok ())] ++ .launch :: [LOp.register (.ok ())])).trace
      = (buildingWhenReady sampleConfig (regs [LOp.register (.ok ())])).1 ∧
     (lexec sampleConfig
        ([LOp.register (.ok ())] ++ .launch :: [LOp.register (.ok ())])).builders
      = regs [LOp.register (.ok ())] ++ regs [LOp.register (.ok ())]) :=
  ⟨by decide,
   late_registration_never_invoked sampleConfig [LOp.register (.ok ())]
     [LOp.register (.ok ())] (by decide)⟩

def sampleNoneConfig : Config := { sampleConfig with buildNone := true }

/-- C8: with `buildNone` configured, `_buildingWhenReady` returns
immediately — the drain produces no invocation events and a resolved
aggregate — and firing the launch signal leaves both the pending builder
list and the invocation trace unchanged. -/
theorem buildNone_skips_all (cfg : Config) (h : cfg.buildNone = true)
    (bs : List (Except String Unit)) (s : LState) :
    buildingWhenReady cfg bs = ([], .ok ()) ∧
    (lstep cfg s .launch).builders = s.builders ∧
    (lstep cfg s .launch).trace = s.trace := by
  have hb : ∀ ts, buildingWhenReady cfg ts = ([], Except.ok ()) := fun ts => by
    simp [buildingWhenReady, h]
  refine ⟨hb bs, ?_, ?_⟩ <;> cases hL : s.launched <;> simp [lstep, hL, hb]

theorem buildNone_skips_all_witness :
    sampleNoneConfig.buildNone = true ∧
    buildingWhenReady sampleNoneConfig [.ok (), .error "x"] = ([], .ok ()) ∧
    (lstep sampleNoneConfig linit .launch).builders = linit.builders ∧
    (lstep sampleNoneConfig linit .launch).trace = linit.trace := by
  have h := buildNone_skips_all sampleNoneConfig rfl [.ok (), .error "x"] linit
  exact ⟨rfl, h.1, h.2.1, h.2.2⟩

end ClientJS
